import Mathlib

set_option maxHeartbeats 1000000

/-
Verification of the Bayesian-persuasion scheme evaluator.

The Python source (simulator.py, baselines.py, llm_client.py, scenarios.py)
is embedded shallowly:
  * a Python `dict` becomes an insertion-ordered association list `Dict K V`;
    `d[k]` (which raises `KeyError` on a missing key) becomes `pyGet`,
    returning `Except PyErr`, and `d.get(k, 0)` becomes `dGetD`;
  * Python floats are modelled as exact rationals `ℚ`; every concrete value
    appearing in the repository (0.5, 1.0, utilities, the tolerance) is a
    small dyadic or decimal rational, so the modelled arithmetic coincides
    with IEEE double arithmetic on all inputs used in the concrete claims;
  * the Python `set` of signals is modelled as a deduplicated list; all
    quantities summed over it live in the commutative monoid ℚ, so the
    iteration order of the set is irrelevant to every value computed.
-/

deriving instance DecidableEq for Except

/-- Association-list model of a Python `dict`: insertion-ordered key/value
pairs with distinct keys (all dicts built by the program have distinct keys). -/
abbrev Dict (K V : Type) : Type := List (K × V)

/-- First-match lookup: the value stored for key `k`, if present. -/
def dictFind? {K V : Type} [DecidableEq K] : Dict K V → K → Option V
  | [], _ => none
  | (k', v) :: rest, k => if k = k' then some v else dictFind? rest k

/-- The key list of a dict (Python `d.keys()`). -/
def dictKeys {K V : Type} (d : Dict K V) : List K := d.map Prod.fst

/-- Python `d.get(k, v0)`: lookup with a default, never an error. -/
def dGetD {K V : Type} [DecidableEq K] (d : Dict K V) (k : K) (v0 : V) : V :=
  (dictFind? d k).getD v0

/-- The one kind of failure the evaluator can raise: a Python `KeyError`
from indexing a dict at a missing key (including `u_s[None]`). -/
inductive PyErr : Type where
  | keyError
deriving DecidableEq

/-- Python `d[k]`: returns the value or raises `KeyError`. -/
def pyGet {K V : Type} [DecidableEq K] (d : Dict K V) (k : K) : Except PyErr V :=
  match dictFind? d k with
  | some v => Except.ok v
  | none => Except.error PyErr.keyError

/-- Python `d[k]` where `k` may be `None` (as happens for
`u_s[action_taken]` when no action was selected): `None` is never a key of a
utility table, so it raises `KeyError`. -/
def pyGetOpt {K V : Type} [DecidableEq K] (d : Dict K V) (k : Option K) : Except PyErr V :=
  match k with
  | some k => pyGet d k
  | none => Except.error PyErr.keyError

/-- Sum of `f` over a list, written as the `foldl` accumulation the Python
loops perform. -/
def sumBy {α : Type} (l : List α) (f : α → ℚ) : ℚ :=
  l.foldl (fun s a => s + f a) 0

/-- The game data held by `BayesianGameSimulator.__init__` (simulator.py):
states, actions, prior, sender utility `u_s`, receiver utility `u_r`. -/
structure GameModel (St A : Type) where
  states : List St
  actions : List A
  prior : Dict St ℚ
  u_s : Dict A (Dict St ℚ)
  u_r : Dict A (Dict St ℚ)

section Simulator

variable {St A Sig : Type} [DecidableEq St] [DecidableEq A] [DecidableEq Sig]

/-- `BayesianGameSimulator._calculate_posterior_belief` (simulator.py
lines 12-34).  First accumulates `prob_signal` over `self.states`, reading
`signaling_scheme[state]` and `self.prior[state]` (each a fallible dict
index) and `row.get(signal, 0)`; if the marginal is zero it returns
`(self.prior, 0.0)`, otherwise it builds the posterior dict keyed by
`self.states` via Bayes' rule. -/
def calculate_posterior_belief (sim : GameModel St A) (signal : Sig)
    (signaling_scheme : Dict St (Dict Sig ℚ)) :
    Except PyErr (Dict St ℚ × ℚ) :=
  (sim.states.foldlM (fun (acc : ℚ) state =>
      (pyGet signaling_scheme state).bind fun row =>
      (pyGet sim.prior state).bind fun p =>
      Except.ok (acc + dGetD row signal 0 * p)) 0).bind fun prob_signal =>
  if prob_signal = 0 then
    Except.ok (sim.prior, 0)
  else
    (sim.states.foldlM (fun (acc : Dict St ℚ) state =>
        (pyGet signaling_scheme state).bind fun row =>
        (pyGet sim.prior state).bind fun p =>
        Except.ok (acc ++ [(state, dGetD row signal 0 * p / prob_signal)])) []).bind
      fun posterior_belief =>
    Except.ok (posterior_belief, prob_signal)

/-- `BayesianGameSimulator._get_receiver_optimal_action` (simulator.py
lines 36-53).  `max_expected_utility` starts at `-inf`, modelled as
`none : Option ℚ`; for each action the expected utility is accumulated over
`self.states` reading `self.u_r[action][state]` and `posterior_belief[state]`;
the pair is updated exactly when the new value is strictly greater.  With an
empty action list the function returns `None` (here `Option.none`). -/
def get_receiver_optimal_action (sim : GameModel St A)
    (posterior_belief : Dict St ℚ) : Except PyErr (Option A) :=
  (sim.actions.foldlM (fun (acc : Option ℚ × Option A) action =>
      (sim.states.foldlM (fun (s : ℚ) state =>
          (pyGet sim.u_r action).bind fun urRow =>
          (pyGet urRow state).bind fun u =>
          (pyGet posterior_belief state).bind fun p =>
          Except.ok (s + u * p)) 0).bind fun expected_utility =>
      Except.ok (match acc.1 with
        | none => (some expected_utility, some action)
        | some m =>
            if m < expected_utility then (some expected_utility, some action)
            else acc)) (none, none)).bind fun r =>
  Except.ok r.2

/-- Step 1 of `calculate_sender_expected_utility`: the set of all signals,
the union of the inner-dict key sets across all states of the scheme
(`signals.update(state_signals.keys())`), as a duplicate-free list. -/
def signalVocab (scheme : Dict St (Dict Sig ℚ)) : List Sig :=
  ((scheme.map (fun p => dictKeys p.2)).flatten).dedup

/-- `BayesianGameSimulator.calculate_sender_expected_utility` (simulator.py
lines 55-88).  Step 1 collects the signal vocabulary; step 2 computes, per
signal, the posterior and the receiver's optimal action, cached in the dicts
`optimal_action_for_signal` and `prob_of_signal`; step 3 accumulates
`Σ_state prior[state] · Σ_signal scheme[state].get(signal,0) ·
u_s[a*(signal)][state]`, where `u_s[action_taken]` is a fallible index (it
raises when `action_taken` is `None`). -/
def calculate_sender_expected_utility (sim : GameModel St A)
    (signaling_scheme : Dict St (Dict Sig ℚ)) : Except PyErr ℚ :=
  ((signalVocab signaling_scheme).foldlM
    (fun (acc : Dict Sig (Option A) × Dict Sig ℚ) signal =>
      (calculate_posterior_belief sim signal signaling_scheme).bind fun pr =>
      (get_receiver_optimal_action sim pr.1).bind fun act =>
      Except.ok (acc.1 ++ [(signal, act)], acc.2 ++ [(signal, pr.2)]))
    ([], [])).bind fun cache =>
  sim.states.foldlM (fun (total : ℚ) state =>
    ((signalVocab signaling_scheme).foldlM (fun (u : ℚ) signal =>
        (pyGet signaling_scheme state).bind fun row =>
        (pyGet cache.1 signal).bind fun action_taken =>
        (pyGetOpt sim.u_s action_taken).bind fun usRow =>
        (pyGet usRow state).bind fun sender_utility =>
        Except.ok (u + dGetD row signal 0 * sender_utility)) 0).bind
      fun utility_for_state =>
    (pyGet sim.prior state).bind fun p =>
    Except.ok (total + p * utility_for_state)) 0

end Simulator

section PureSpec

variable {St A Sig : Type} [DecidableEq St] [DecidableEq A] [DecidableEq Sig]

/-- The prior mass the simulator reads for a state (0 as junk default; every
theorem assumes the prior is defined on the model's states). -/
def priorAt (sim : GameModel St A) (s : St) : ℚ :=
  dGetD sim.prior s 0

/-- `signaling_scheme[state].get(signal, 0)` as a total function (with the
empty row as junk default for a missing state). -/
def schemeAt (scheme : Dict St (Dict Sig ℚ)) (s : St) (m : Sig) : ℚ :=
  dGetD (dGetD scheme s []) m 0

/-- The marginal probability of a signal:
`Σ_state scheme[state].get(signal,0) · prior[state]` over the model's states. -/
def marginalQ (sim : GameModel St A) (scheme : Dict St (Dict Sig ℚ))
    (m : Sig) : ℚ :=
  sumBy sim.states (fun s => schemeAt scheme s m * priorAt sim s)

/-- The posterior dict built by Bayes' rule for a signal of nonzero
marginal, keyed by the model's states in order. -/
def posteriorListQ (sim : GameModel St A) (scheme : Dict St (Dict Sig ℚ))
    (m : Sig) : Dict St ℚ :=
  sim.states.map (fun s =>
    (s, schemeAt scheme s m * priorAt sim s / marginalQ sim scheme m))

/-- The belief `_calculate_posterior_belief` produces for a signal: the
prior when the marginal is zero, otherwise the Bayes posterior. -/
def postOf (sim : GameModel St A) (scheme : Dict St (Dict Sig ℚ))
    (m : Sig) : Dict St ℚ :=
  if marginalQ sim scheme m = 0 then sim.prior
  else posteriorListQ sim scheme m

/-- Receiver utility entry `u_r[a][s]` as a total function. -/
def urAt (sim : GameModel St A) (a : A) (s : St) : ℚ :=
  dGetD (dGetD sim.u_r a []) s 0

/-- Sender utility entry `u_s[a][s]` for an optional action (0 as junk
default; the theorems assume the chosen action exists in the table). -/
def usAt (sim : GameModel St A) (a : Option A) (s : St) : ℚ :=
  match a with
  | none => 0
  | some a => dGetD (dGetD sim.u_s a []) s 0

/-- Expected receiver utility of an action under a belief:
`Σ_state u_r[a][state] · belief[state]`. -/
def euQ (sim : GameModel St A) (belief : Dict St ℚ) (a : A) : ℚ :=
  sumBy sim.states (fun s => urAt sim a s * dGetD belief s 0)

/-- One step of the argmax scan of `_get_receiver_optimal_action`:
update the (max, argmax) pair exactly when strictly greater. -/
def bestStep (eu : A → ℚ) (acc : Option ℚ × Option A) (a : A) :
    Option ℚ × Option A :=
  match acc.1 with
  | none => (some (eu a), some a)
  | some m => if m < eu a then (some (eu a), some a) else acc

/-- The action `_get_receiver_optimal_action` selects under a belief
(`none` when the action list is empty). -/
def bestActQ (sim : GameModel St A) (belief : Dict St ℚ) : Option A :=
  (sim.actions.foldl (bestStep (euQ sim belief)) (none, none)).2

/-- The receiver's cached best-response action for a signal: the argmax
under that signal's posterior belief. -/
def bestOf (sim : GameModel St A) (scheme : Dict St (Dict Sig ℚ))
    (m : Sig) : Option A :=
  bestActQ sim (postOf sim scheme m)

/-- The closed-form sender expected utility:
`Σ_state prior[state] · Σ_signal scheme[state].get(signal,0) ·
u_s[a*(signal)][state]` over the scheme's signal vocabulary. -/
def senderEUQ (sim : GameModel St A) (scheme : Dict St (Dict Sig ℚ)) : ℚ :=
  sumBy sim.states (fun s => priorAt sim s *
    sumBy (signalVocab scheme) (fun m =>
      schemeAt scheme s m * usAt sim (bestOf sim scheme m) s))

end PureSpec

section Baselines

variable {St : Type} [DecidableEq St]

/-- `get_full_revelation_scheme` (baselines.py lines 1-12): the signal space
is the state space and state `ω` sends signal `ω` with probability 1. -/
def get_full_revelation_scheme (states : List St) : Dict St (Dict St ℚ) :=
  states.map (fun state_omega =>
    (state_omega, states.map (fun state_m =>
      (state_m, if state_omega = state_m then (1 : ℚ) else 0))))

/-- `get_no_revelation_scheme` (baselines.py lines 14-23): every state sends
the single signal `"NoSignal"` with probability 1. -/
def get_no_revelation_scheme (states : List St) : Dict St (Dict String ℚ) :=
  states.map (fun state => (state, [("NoSignal", (1 : ℚ))]))

end Baselines

section Validator

variable {St Sig : Type} [DecidableEq St] [DecidableEq Sig]

/-- Decidable set equality of two key lists (Python
`set(scheme.keys()) != set(states)`). -/
def sameKeySet (l₁ l₂ : List St) : Prop :=
  ∀ x, x ∈ l₁ ↔ x ∈ l₂

instance (l₁ l₂ : List St) : Decidable (sameKeySet l₁ l₂) := by
  unfold sameKeySet
  have h₁ : Decidable (∀ x ∈ l₁, x ∈ l₂) := List.decidableBAll _ l₁
  have h₂ : Decidable (∀ x ∈ l₂, x ∈ l₁) := List.decidableBAll _ l₂
  rcases h₁ with h₁ | h₁
  · exact Decidable.isFalse (fun h => h₁ (fun x hx => (h x).1 hx))
  · rcases h₂ with h₂ | h₂
    · exact Decidable.isFalse (fun h => h₂ (fun x hx => (h x).2 hx))
    · exact Decidable.isTrue (fun x => ⟨fun hx => h₁ x hx, fun hx => h₂ x hx⟩)

/-- `validate_llm_scheme` (llm_client.py lines 49-70), restricted to its
boolean verdict (the accompanying message strings carry no further data).
The `isinstance` checks of the Python code are statically satisfied by the
embedding's types.  The checks performed are: the outer key set equals the
state set; every state has a non-empty inner dict; every state's
probabilities sum to 1.0 within 1e-6.  No check of nonnegativity of the
individual probabilities is performed by the source. -/
def validate_llm_scheme (scheme : Dict St (Dict Sig ℚ)) (states : List St) :
    Bool :=
  if ¬ sameKeySet (dictKeys scheme) states then false
  else scheme.all (fun p =>
    !(p.2.isEmpty) && decide (|sumBy p.2 (fun q => q.2) - 1| < 1 / 1000000))

end Validator

/-- `scenario_2` from scenarios.py: the `SimpleBinaryGame`. -/
def scenario_2 : GameModel String String :=
  { states := ["Good", "Bad"]
    actions := ["Accept", "Reject"]
    prior := [("Good", 1/2), ("Bad", 1/2)]
    u_s := [("Accept", [("Good", 1), ("Bad", 1)]),
            ("Reject", [("Good", 0), ("Bad", 0)])]
    u_r := [("Accept", [("Good", 1), ("Bad", -1)]),
            ("Reject", [("Good", 0), ("Bad", 0)])] }

section DictLemmas

variable {K V : Type} [DecidableEq K]

theorem dictFind?_isSome_iff_mem {d : Dict K V} {k : K} :
    (dictFind? d k).isSome ↔ k ∈ dictKeys d := by
  induction d with
  | nil => simp [dictFind?, dictKeys]
  | cons p rest ih =>
      obtain ⟨k', v⟩ := p
      by_cases h : k = k'
      · subst h; simp [dictFind?, dictKeys]
      · simp [dictFind?, dictKeys, h, ih]

theorem dictFind?_eq_some_mem {d : Dict K V} {k : K} {v : V}
    (h : dictFind? d k = some v) : (k, v) ∈ d := by
  induction d with
  | nil => simp [dictFind?] at h
  | cons p rest ih =>
      obtain ⟨k', v'⟩ := p
      simp only [dictFind?] at h
      split at h
      · rename_i heq
        injection h with h2
        subst heq; subst h2
        exact List.mem_cons_self _ _
      · exact List.mem_cons_of_mem _ (ih h)

theorem dictFind?_map_self {β : Type} (f : K → β) {l : List K} {k : K}
    (hk : k ∈ l) : dictFind? (l.map (fun a => (a, f a))) k = some (f k) := by
  induction l with
  | nil => cases hk
  | cons x xs ih =>
      rcases List.mem_cons.mp hk with rfl | h
      · simp [dictFind?]
      · by_cases hx : k = x
        · subst hx; simp [dictFind?]
        · simp [dictFind?, hx, ih h]

theorem dictFind?_filter (p : K → Bool) (d : Dict K V) (k : K)
    (hk : p k = true) :
    dictFind? (d.filter (fun q => p q.1)) k = dictFind? d k := by
  induction d with
  | nil => rfl
  | cons q rest ih =>
      obtain ⟨k', v⟩ := q
      by_cases hkk : k = k'
      · subst hkk
        simp [List.filter_cons, hk, dictFind?]
      · cases hp : p k' <;>
          simp [List.filter_cons, hp, dictFind?, hkk, ih]

theorem pyGet_eq_ok {d : Dict K V} {k : K} {v : V}
    (h : dictFind? d k = some v) : pyGet d k = Except.ok v := by
  simp [pyGet, h]

theorem pyGet_eq_error {d : Dict K V} {k : K}
    (h : dictFind? d k = none) : pyGet d k = Except.error PyErr.keyError := by
  simp [pyGet, h]

theorem dGetD_eq {d : Dict K V} {k : K} {v : V} (v0 : V)
    (h : dictFind? d k = some v) : dGetD d k v0 = v := by
  simp [dGetD, h]

end DictLemmas

section FoldLemmas

theorem exceptBind_ok {α β : Type} (a : α) (f : α → Except PyErr β) :
    (Except.ok a : Except PyErr α).bind f = f a := rfl

theorem exceptBind_error {α β : Type} (e : PyErr) (f : α → Except PyErr β) :
    (Except.error e : Except PyErr α).bind f = Except.error e := rfl

theorem foldlM_ok {α β : Type} (F : β → α → Except PyErr β) (f : β → α → β)
    (l : List α) (h : ∀ a ∈ l, ∀ x, F x a = Except.ok (f x a)) :
    ∀ b : β, l.foldlM F b = Except.ok (l.foldl f b) := by
  induction l with
  | nil => intro b; rfl
  | cons x xs ih =>
      intro b
      rw [List.foldlM_cons, h x (List.mem_cons_self _ _) b]
      show xs.foldlM F (f b x) = _
      rw [List.foldl_cons]
      exact ih (fun a ha y => h a (List.mem_cons_of_mem _ ha) y) (f b x)

theorem foldlM_error {α β : Type} (F : β → α → Except PyErr β) (l : List α)
    (a : α) (hfail : ∀ x, F x a = Except.error PyErr.keyError) :
    ∀ b : β, a ∈ l → l.foldlM F b = Except.error PyErr.keyError := by
  induction l with
  | nil => intro b h; cases h
  | cons x xs ih =>
      intro b h
      rcases List.mem_cons.mp h with rfl | h'
      · rw [List.foldlM_cons, hfail b]; rfl
      · rw [List.foldlM_cons]
        cases hFx : F b x with
        | ok b' =>
            show xs.foldlM F b' = _
            exact ih b' h'
        | error e => cases e; rfl

theorem foldl_append_map {α β : Type} (g : α → β) (l : List α) :
    ∀ acc : List β,
      l.foldl (fun acc a => acc ++ [g a]) acc = acc ++ l.map g := by
  induction l with
  | nil => intro acc; simp
  | cons x xs ih => intro acc; simp [List.foldl_cons, ih]

theorem foldl_pair_append_map {α β γ : Type} (g₁ : α → β) (g₂ : α → γ)
    (l : List α) :
    ∀ acc : List (α × β) × List (α × γ),
      l.foldl (fun acc a =>
          (acc.1 ++ [(a, g₁ a)], acc.2 ++ [(a, g₂ a)])) acc =
        (acc.1 ++ l.map (fun a => (a, g₁ a)),
         acc.2 ++ l.map (fun a => (a, g₂ a))) := by
  induction l with
  | nil => intro acc; simp
  | cons x xs ih => intro acc; simp [List.foldl_cons, ih]

theorem sumBy_from {α : Type} (f : α → ℚ) (l : List α) :
    ∀ b : ℚ, l.foldl (fun s a => s + f a) b = b + sumBy l f := by
  induction l with
  | nil => intro b; simp [sumBy]
  | cons x xs ih =>
      intro b
      simp only [sumBy, List.foldl_cons]
      rw [ih (b + f x), ih (0 + f x)]
      ring

theorem sumBy_nil {α : Type} (f : α → ℚ) : sumBy ([] : List α) f = 0 := rfl

theorem sumBy_cons {α : Type} (f : α → ℚ) (x : α) (xs : List α) :
    sumBy (x :: xs) f = f x + sumBy xs f := by
  have h1 : sumBy (x :: xs) f = xs.foldl (fun s a => s + f a) (0 + f x) := rfl
  rw [h1, sumBy_from f xs (0 + f x)]
  ring

theorem sumBy_congr {α : Type} {f g : α → ℚ} {l : List α}
    (h : ∀ x ∈ l, f x = g x) : sumBy l f = sumBy l g := by
  induction l with
  | nil => rfl
  | cons x xs ih =>
      rw [sumBy_cons, sumBy_cons, h x (List.mem_cons_self _ _),
        ih (fun a ha => h a (List.mem_cons_of_mem _ ha))]

theorem sumBy_eq_map_sum {α : Type} (f : α → ℚ) (l : List α) :
    sumBy l f = (l.map f).sum := by
  induction l with
  | nil => rfl
  | cons x xs ih => rw [sumBy_cons, List.map_cons, List.sum_cons, ih]

theorem sumBy_eq_toFinset_sum {α : Type} [DecidableEq α] (f : α → ℚ)
    {l : List α} (hl : l.Nodup) : sumBy l f = l.toFinset.sum f := by
  rw [sumBy_eq_map_sum, List.sum_toFinset f hl]

end FoldLemmas

section Definedness

/-- A dict has an entry for every key in `ks` (so indexing never raises). -/
def definedOn {K V : Type} [DecidableEq K] (d : Dict K V) (ks : List K) : Prop :=
  ∀ k ∈ ks, (dictFind? d k).isSome

instance {K V : Type} [DecidableEq K] (d : Dict K V) (ks : List K) :
    Decidable (definedOn d ks) := List.decidableBAll _ ks

/-- A utility table is fully defined over the given actions and states. -/
def tableDefined {A St : Type} [DecidableEq A] [DecidableEq St]
    (t : Dict A (Dict St ℚ)) (acts : List A) (sts : List St) : Prop :=
  ∀ a ∈ acts, (dictFind? t a).isSome ∧ definedOn (dGetD t a []) sts

instance {A St : Type} [DecidableEq A] [DecidableEq St]
    (t : Dict A (Dict St ℚ)) (acts : List A) (sts : List St) :
    Decidable (tableDefined t acts sts) := List.decidableBAll _ acts

theorem pyGet_eq_ok_getD {K V : Type} [DecidableEq K] {d : Dict K V} {k : K}
    (v0 : V) (h : (dictFind? d k).isSome) :
    pyGet d k = Except.ok (dGetD d k v0) := by
  obtain ⟨v, hv⟩ := Option.isSome_iff_exists.mp h
  rw [pyGet_eq_ok hv, dGetD_eq v0 hv]

end Definedness

section SimulatorLemmas

variable {St A Sig : Type} [DecidableEq St] [DecidableEq A] [DecidableEq Sig]

theorem marginal_foldlM_ok (sim : GameModel St A)
    (scheme : Dict St (Dict Sig ℚ)) (m : Sig)
    (hs : definedOn scheme sim.states) (hp : definedOn sim.prior sim.states) :
    sim.states.foldlM (fun (acc : ℚ) state =>
        (pyGet scheme state).bind fun row =>
        (pyGet sim.prior state).bind fun p =>
        Except.ok (acc + dGetD row m 0 * p)) 0
      = Except.ok (marginalQ sim scheme m) := by
  have hsteps : ∀ state ∈ sim.states, ∀ x : ℚ,
      ((pyGet scheme state).bind fun row =>
       (pyGet sim.prior state).bind fun p =>
       Except.ok (x + dGetD row m 0 * p))
      = Except.ok (x + schemeAt scheme state m * priorAt sim state) := by
    intro state hst x
    rw [pyGet_eq_ok_getD [] (hs state hst), exceptBind_ok,
      pyGet_eq_ok_getD 0 (hp state hst), exceptBind_ok]
    rfl
  rw [foldlM_ok _
    (fun (x : ℚ) state => x + schemeAt scheme state m * priorAt sim state)
    sim.states hsteps 0]
  rfl

/-- Reduction of `_calculate_posterior_belief` to its mathematical value:
the pair of the belief `postOf` and the marginal `marginalQ`. -/
theorem calculate_posterior_belief_eq (sim : GameModel St A)
    (scheme : Dict St (Dict Sig ℚ)) (m : Sig)
    (hs : definedOn scheme sim.states) (hp : definedOn sim.prior sim.states) :
    calculate_posterior_belief sim m scheme =
      Except.ok (postOf sim scheme m, marginalQ sim scheme m) := by
  rw [calculate_posterior_belief, marginal_foldlM_ok sim scheme m hs hp,
    exceptBind_ok]
  by_cases hz : marginalQ sim scheme m = 0
  · rw [if_pos hz, postOf, if_pos hz, hz]
  · have hsteps : ∀ state ∈ sim.states, ∀ x : Dict St ℚ,
        ((pyGet scheme state).bind fun row =>
         (pyGet sim.prior state).bind fun p =>
         Except.ok (x ++ [(state, dGetD row m 0 * p / marginalQ sim scheme m)]))
        = Except.ok (x ++ [(state, schemeAt scheme state m * priorAt sim state /
            marginalQ sim scheme m)]) := by
      intro state hst x
      rw [pyGet_eq_ok_getD [] (hs state hst), exceptBind_ok,
        pyGet_eq_ok_getD 0 (hp state hst), exceptBind_ok]
      rfl
    rw [if_neg hz, postOf, if_neg hz,
      foldlM_ok _
        (fun (x : Dict St ℚ) state => x ++
          [(state, schemeAt scheme state m * priorAt sim state /
            marginalQ sim scheme m)]) sim.states hsteps [], exceptBind_ok,
      foldl_append_map, posteriorListQ, List.nil_append]

/-- Reduction of `_get_receiver_optimal_action` to the pure argmax scan
`bestActQ`. -/
theorem get_receiver_optimal_action_eq (sim : GameModel St A)
    (belief : Dict St ℚ)
    (hur : tableDefined sim.u_r sim.actions sim.states)
    (hb : definedOn belief sim.states) :
    get_receiver_optimal_action sim belief =
      Except.ok (bestActQ sim belief) := by
  have heu : ∀ a ∈ sim.actions,
      sim.states.foldlM (fun (s : ℚ) state =>
          (pyGet sim.u_r a).bind fun urRow =>
          (pyGet urRow state).bind fun u =>
          (pyGet belief state).bind fun p =>
          Except.ok (s + u * p)) 0
        = Except.ok (euQ sim belief a) := by
    intro a ha
    have hsteps : ∀ state ∈ sim.states, ∀ y : ℚ,
        ((pyGet sim.u_r a).bind fun urRow =>
         (pyGet urRow state).bind fun u =>
         (pyGet belief state).bind fun p =>
         Except.ok (y + u * p))
        = Except.ok (y + urAt sim a state * dGetD belief state 0) := by
      intro state hst y
      rw [pyGet_eq_ok_getD [] (hur a ha).1, exceptBind_ok,
        pyGet_eq_ok_getD 0 ((hur a ha).2 state hst), exceptBind_ok,
        pyGet_eq_ok_getD 0 (hb state hst), exceptBind_ok]
      rfl
    rw [foldlM_ok _
      (fun (y : ℚ) state => y + urAt sim a state * dGetD belief state 0)
      sim.states hsteps 0]
    rfl
  have hsteps2 : ∀ a ∈ sim.actions, ∀ x : Option ℚ × Option A,
      ((sim.states.foldlM (fun (s : ℚ) state =>
          (pyGet sim.u_r a).bind fun urRow =>
          (pyGet urRow state).bind fun u =>
          (pyGet belief state).bind fun p =>
          Except.ok (s + u * p)) 0).bind fun expected_utility =>
        Except.ok (match x.1 with
          | none => (some expected_utility, some a)
          | some m =>
              if m < expected_utility then (some expected_utility, some a)
              else x))
      = Except.ok (bestStep (euQ sim belief) x a) := by
    intro a ha x
    rw [heu a ha, exceptBind_ok]
    rfl
  rw [get_receiver_optimal_action, foldlM_ok _
    (bestStep (euQ sim belief)) sim.actions hsteps2 (none, none),
    exceptBind_ok]
  rfl

theorem bestFold_spec {B : Type} (eu : B → ℚ) :
    ∀ (l : List B) (m : ℚ) (c : B),
      ∃ M d, l.foldl (bestStep eu) (some m, some c) = (some M, some d) ∧
        ((d = c ∧ M = m ∧ ∀ b ∈ l, eu b ≤ m) ∨
         (∃ q₁ q₂, l = q₁ ++ d :: q₂ ∧ M = eu d ∧ m < eu d ∧
           (∀ b ∈ q₁, eu b < eu d) ∧ (∀ b ∈ q₂, eu b ≤ eu d))) := by
  intro l
  induction l with
  | nil =>
      intro m c
      exact ⟨m, c, rfl, Or.inl ⟨rfl, rfl, by simp⟩⟩
  | cons x xs ih =>
      intro m c
      by_cases hx : m < eu x
      · have hstep : (x :: xs).foldl (bestStep eu) (some m, some c)
            = xs.foldl (bestStep eu) (some (eu x), some x) := by
          rw [List.foldl_cons]
          simp [bestStep, hx]
        obtain ⟨M, d, hfold, hcase⟩ := ih (eu x) x
        refine ⟨M, d, by rw [hstep]; exact hfold, ?_⟩
        rcases hcase with ⟨rfl, rfl, hall⟩ | ⟨q₁, q₂, rfl, hM, hlt, hq₁, hq₂⟩
        · exact Or.inr ⟨[], xs, rfl, rfl, hx, by simp, hall⟩
        · refine Or.inr ⟨x :: q₁, q₂, rfl, hM, lt_trans hx hlt, ?_, hq₂⟩
          intro b hb
          rcases List.mem_cons.mp hb with rfl | hb
          · exact hlt
          · exact hq₁ b hb
      · have hstep : (x :: xs).foldl (bestStep eu) (some m, some c)
            = xs.foldl (bestStep eu) (some m, some c) := by
          rw [List.foldl_cons]
          simp [bestStep, hx]
        obtain ⟨M, d, hfold, hcase⟩ := ih m c
        refine ⟨M, d, by rw [hstep]; exact hfold, ?_⟩
        rcases hcase with ⟨rfl, rfl, hall⟩ | ⟨q₁, q₂, heq, hM, hlt, hq₁, hq₂⟩
        · refine Or.inl ⟨rfl, rfl, ?_⟩
          intro b hb
          rcases List.mem_cons.mp hb with rfl | hb
          · exact not_lt.mp hx
          · exact hall b hb
        · refine Or.inr ⟨x :: q₁, q₂, by rw [heq, List.cons_append], hM, hlt, ?_, hq₂⟩
          intro b hb
          rcases List.mem_cons.mp hb with rfl | hb
          · exact lt_of_le_of_lt (not_lt.mp hx) hlt
          · exact hq₁ b hb

/-- The action selected by the argmax scan is the first action, in the
model's action order, that attains the maximal expected utility: everything
before it is strictly worse, everything after it is no better. -/
theorem bestActQ_spec (sim : GameModel St A) (belief : Dict St ℚ)
    (hact : sim.actions ≠ []) :
    ∃ a p₁ p₂, bestActQ sim belief = some a ∧
      sim.actions = p₁ ++ a :: p₂ ∧
      (∀ b ∈ p₁, euQ sim belief b < euQ sim belief a) ∧
      (∀ b ∈ p₂, euQ sim belief b ≤ euQ sim belief a) := by
  obtain ⟨a₀, rest, hacts⟩ := List.exists_cons_of_ne_nil hact
  obtain ⟨M, d, hfold, hcase⟩ :=
    bestFold_spec (euQ sim belief) rest (euQ sim belief a₀) a₀
  have hbest : bestActQ sim belief = some d := by
    rw [bestActQ, hacts, List.foldl_cons]
    have h0 : bestStep (euQ sim belief) (none, none) a₀
        = (some (euQ sim belief a₀), some a₀) := rfl
    rw [h0, hfold]
  rcases hcase with ⟨hdc, -, hall⟩ | ⟨q₁, q₂, hrest, -, hlt, hq₁, hq₂⟩
  · refine ⟨a₀, [], rest, ?_, by rw [hacts]; rfl, by simp, hall⟩
    rw [hbest, hdc]
  · refine ⟨d, a₀ :: q₁, q₂, hbest, by rw [hacts, hrest]; rfl, ?_, hq₂⟩
    intro b hb
    rcases List.mem_cons.mp hb with rfl | hb
    · exact hlt
    · exact hq₁ b hb

theorem bestActQ_mem (sim : GameModel St A) (belief : Dict St ℚ)
    (hact : sim.actions ≠ []) :
    ∃ a ∈ sim.actions, bestActQ sim belief = some a := by
  obtain ⟨a, p₁, p₂, h1, h2, -, -⟩ := bestActQ_spec sim belief hact
  refine ⟨a, ?_, h1⟩
  rw [h2]
  exact List.mem_append_right _ (List.mem_cons_self _ _)

theorem postOf_definedOn (sim : GameModel St A)
    (scheme : Dict St (Dict Sig ℚ)) (m : Sig)
    (hp : definedOn sim.prior sim.states) :
    definedOn (postOf sim scheme m) sim.states := by
  rw [postOf]
  split
  · exact hp
  · intro s hs
    rw [posteriorListQ, dictFind?_map_self _ hs]
    rfl

theorem pyGetOpt_some {K V : Type} [DecidableEq K] (d : Dict K V) (k : K) :
    pyGetOpt d (some k) = pyGet d k := rfl

/-- Reduction of `calculate_sender_expected_utility` to the closed-form
double sum `senderEUQ`, for a scheme defined on every model state and a
well-formed model with at least one action. -/
theorem calculate_sender_ok (sim : GameModel St A)
    (scheme : Dict St (Dict Sig ℚ))
    (hs : definedOn scheme sim.states)
    (hp : definedOn sim.prior sim.states)
    (hur : tableDefined sim.u_r sim.actions sim.states)
    (hus : tableDefined sim.u_s sim.actions sim.states)
    (hact : sim.actions ≠ []) :
    calculate_sender_expected_utility sim scheme =
      Except.ok (senderEUQ sim scheme) := by
  have hcachesteps : ∀ m ∈ signalVocab scheme,
      ∀ x : Dict Sig (Option A) × Dict Sig ℚ,
      ((calculate_posterior_belief sim m scheme).bind fun pr =>
       (get_receiver_optimal_action sim pr.1).bind fun act =>
       Except.ok (x.1 ++ [(m, act)], x.2 ++ [(m, pr.2)]))
      = Except.ok (x.1 ++ [(m, bestOf sim scheme m)],
          x.2 ++ [(m, marginalQ sim scheme m)]) := by
    intro m _hm x
    rw [calculate_posterior_belief_eq sim scheme m hs hp, exceptBind_ok,
      get_receiver_optimal_action_eq sim (postOf sim scheme m) hur
        (postOf_definedOn sim scheme m hp), exceptBind_ok]
    rfl
  have hcache : (signalVocab scheme).foldlM
      (fun (acc : Dict Sig (Option A) × Dict Sig ℚ) signal =>
        (calculate_posterior_belief sim signal scheme).bind fun pr =>
        (get_receiver_optimal_action sim pr.1).bind fun act =>
        Except.ok (acc.1 ++ [(signal, act)], acc.2 ++ [(signal, pr.2)]))
      ([], [])
      = Except.ok
          ((signalVocab scheme).map (fun m => (m, bestOf sim scheme m)),
           (signalVocab scheme).map (fun m => (m, marginalQ sim scheme m))) := by
    rw [foldlM_ok _
      (fun (x : Dict Sig (Option A) × Dict Sig ℚ) m =>
        (x.1 ++ [(m, bestOf sim scheme m)],
         x.2 ++ [(m, marginalQ sim scheme m)]))
      (signalVocab scheme) hcachesteps ([], []),
      foldl_pair_append_map (fun m => bestOf sim scheme m)
        (fun m => marginalQ sim scheme m) (signalVocab scheme) ([], [])]
    rfl
  have hinner : ∀ state ∈ sim.states,
      (signalVocab scheme).foldlM (fun (u : ℚ) signal =>
          (pyGet scheme state).bind fun row =>
          (pyGet ((signalVocab scheme).map
            (fun m => (m, bestOf sim scheme m))) signal).bind
            fun action_taken =>
          (pyGetOpt sim.u_s action_taken).bind fun usRow =>
          (pyGet usRow state).bind fun sender_utility =>
          Except.ok (u + dGetD row signal 0 * sender_utility)) 0
        = Except.ok (sumBy (signalVocab scheme) (fun m =>
            schemeAt scheme state m *
              usAt sim (bestOf sim scheme m) state)) := by
    intro state hst
    have hsteps : ∀ m ∈ signalVocab scheme, ∀ u : ℚ,
        ((pyGet scheme state).bind fun row =>
         (pyGet ((signalVocab scheme).map
            (fun m => (m, bestOf sim scheme m))) m).bind
           fun action_taken =>
         (pyGetOpt sim.u_s action_taken).bind fun usRow =>
         (pyGet usRow state).bind fun sender_utility =>
         Except.ok (u + dGetD row m 0 * sender_utility))
        = Except.ok (u + schemeAt scheme state m *
            usAt sim (bestOf sim scheme m) state) := by
      intro m hm u
      obtain ⟨a, hamem, hba⟩ := bestActQ_mem sim (postOf sim scheme m) hact
      have hbOf : bestOf sim scheme m = some a := hba
      rw [pyGet_eq_ok_getD [] (hs state hst), exceptBind_ok,
        pyGet_eq_ok (dictFind?_map_self (fun m => bestOf sim scheme m) hm),
        exceptBind_ok]
      simp only [hbOf, pyGetOpt_some]
      rw [pyGet_eq_ok_getD [] (hus a hamem).1, exceptBind_ok,
        pyGet_eq_ok_getD 0 ((hus a hamem).2 state hst), exceptBind_ok]
      rfl
    rw [foldlM_ok _
      (fun (u : ℚ) m => u + schemeAt scheme state m *
        usAt sim (bestOf sim scheme m) state)
      (signalVocab scheme) hsteps 0]
    rfl
  have houter : ∀ state ∈ sim.states, ∀ t : ℚ,
      (((signalVocab scheme).foldlM (fun (u : ℚ) signal =>
          (pyGet scheme state).bind fun row =>
          (pyGet ((signalVocab scheme).map
            (fun m => (m, bestOf sim scheme m))) signal).bind
            fun action_taken =>
          (pyGetOpt sim.u_s action_taken).bind fun usRow =>
          (pyGet usRow state).bind fun sender_utility =>
          Except.ok (u + dGetD row signal 0 * sender_utility)) 0).bind
        fun utility_for_state =>
       (pyGet sim.prior state).bind fun p =>
       Except.ok (t + p * utility_for_state))
      = Except.ok (t + priorAt sim state * sumBy (signalVocab scheme)
          (fun m => schemeAt scheme state m *
            usAt sim (bestOf sim scheme m) state)) := by
    intro state hst t
    rw [hinner state hst, exceptBind_ok,
      pyGet_eq_ok_getD 0 (hp state hst), exceptBind_ok]
    rfl
  simp only [calculate_sender_expected_utility, hcache, exceptBind_ok]
  rw [foldlM_ok _
    (fun (t : ℚ) state => t + priorAt sim state * sumBy (signalVocab scheme)
      (fun m => schemeAt scheme state m *
        usAt sim (bestOf sim scheme m) state))
    sim.states houter 0]
  rfl

end SimulatorLemmas

section ErrorPath

variable {St A Sig : Type} [DecidableEq St] [DecidableEq A] [DecidableEq Sig]

/-- When some model state is absent from the scheme's outer dict, the
marginal loop of `_calculate_posterior_belief` raises `KeyError` at that
state (for every signal). -/
theorem calculate_posterior_belief_missing (sim : GameModel St A)
    (scheme : Dict St (Dict Sig ℚ)) (m : Sig) (s0 : St)
    (hmem : s0 ∈ sim.states) (hmiss : dictFind? scheme s0 = none) :
    calculate_posterior_belief sim m scheme = Except.error PyErr.keyError := by
  have hfail : ∀ x : ℚ,
      ((pyGet scheme s0).bind fun row =>
       (pyGet sim.prior s0).bind fun p =>
       Except.ok (x + dGetD row m 0 * p)) = Except.error PyErr.keyError := by
    intro x
    rw [pyGet_eq_error hmiss]
    rfl
  rw [calculate_posterior_belief,
    foldlM_error _ sim.states s0 hfail 0 hmem]
  rfl

/-- When some model state is absent from the scheme and the scheme mentions
at least one signal, `calculate_sender_expected_utility` raises `KeyError`
(there is no dedicated scheme/state-set validation in the code). -/
theorem calculate_sender_missing_state (sim : GameModel St A)
    (scheme : Dict St (Dict Sig ℚ)) (s0 : St)
    (hmem : s0 ∈ sim.states) (hmiss : dictFind? scheme s0 = none)
    (hvocab : signalVocab scheme ≠ []) :
    calculate_sender_expected_utility sim scheme =
      Except.error PyErr.keyError := by
  obtain ⟨m, rest, hv⟩ := List.exists_cons_of_ne_nil hvocab
  have hfail : ∀ x : Dict Sig (Option A) × Dict Sig ℚ,
      ((calculate_posterior_belief sim m scheme).bind fun pr =>
       (get_receiver_optimal_action sim pr.1).bind fun act =>
       Except.ok (x.1 ++ [(m, act)], x.2 ++ [(m, pr.2)]))
      = Except.error PyErr.keyError := by
    intro x
    rw [calculate_posterior_belief_missing sim scheme m s0 hmem hmiss]
    rfl
  rw [calculate_sender_expected_utility,
    foldlM_error _ (signalVocab scheme) m hfail ([], [])
      (by rw [hv]; exact List.mem_cons_self _ _)]
  rfl

end ErrorPath

section Restriction

variable {St A Sig : Type} [DecidableEq St] [DecidableEq A] [DecidableEq Sig]

/-- The scheme restricted to the model's states (keeping only the outer
entries whose key is a model state). -/
def restrictScheme (sim : GameModel St A) (scheme : Dict St (Dict Sig ℚ)) :
    Dict St (Dict Sig ℚ) :=
  scheme.filter (fun p => decide (p.1 ∈ sim.states))

theorem restrict_find (sim : GameModel St A) (scheme : Dict St (Dict Sig ℚ))
    {s : St} (hsst : s ∈ sim.states) :
    dictFind? (restrictScheme sim scheme) s = dictFind? scheme s := by
  rw [restrictScheme]
  exact dictFind?_filter (fun k => decide (k ∈ sim.states)) scheme s
    (by simp [hsst])

theorem schemeAt_restrict (sim : GameModel St A)
    (scheme : Dict St (Dict Sig ℚ)) {s : St} (hsst : s ∈ sim.states)
    (m : Sig) :
    schemeAt (restrictScheme sim scheme) s m = schemeAt scheme s m := by
  rw [schemeAt, schemeAt, dGetD, dGetD, restrict_find sim scheme hsst]
  rfl

theorem marginalQ_restrict (sim : GameModel St A)
    (scheme : Dict St (Dict Sig ℚ)) (m : Sig) :
    marginalQ sim (restrictScheme sim scheme) m = marginalQ sim scheme m := by
  rw [marginalQ, marginalQ]
  exact sumBy_congr (fun s hsst => by
    rw [schemeAt_restrict sim scheme hsst m])

theorem postOf_restrict (sim : GameModel St A)
    (scheme : Dict St (Dict Sig ℚ)) (m : Sig) :
    postOf sim (restrictScheme sim scheme) m = postOf sim scheme m := by
  have hmap : sim.states.map (fun s =>
      (s, schemeAt (restrictScheme sim scheme) s m * priorAt sim s /
        marginalQ sim scheme m))
      = sim.states.map (fun s =>
        (s, schemeAt scheme s m * priorAt sim s / marginalQ sim scheme m)) :=
    List.map_congr_left (fun s hsst => by
      rw [schemeAt_restrict sim scheme hsst m])
  rw [postOf, postOf, posteriorListQ, posteriorListQ, marginalQ_restrict,
    hmap]

theorem bestOf_restrict (sim : GameModel St A)
    (scheme : Dict St (Dict Sig ℚ)) (m : Sig) :
    bestOf sim (restrictScheme sim scheme) m = bestOf sim scheme m := by
  rw [bestOf, bestOf, postOf_restrict]

theorem signalVocab_nodup (scheme : Dict St (Dict Sig ℚ)) :
    (signalVocab scheme).Nodup := by
  rw [signalVocab]
  exact List.nodup_dedup _

theorem mem_signalVocab_iff {scheme : Dict St (Dict Sig ℚ)} {m : Sig} :
    m ∈ signalVocab scheme ↔ ∃ p ∈ scheme, m ∈ dictKeys p.2 := by
  rw [signalVocab, List.mem_dedup, List.mem_flatten]
  constructor
  · rintro ⟨l, hl, hml⟩
    obtain ⟨p, hp, rfl⟩ := List.mem_map.mp hl
    exact ⟨p, hp, hml⟩
  · rintro ⟨p, hp, hml⟩
    exact ⟨dictKeys p.2,
      List.mem_map_of_mem (fun p => dictKeys p.2) hp, hml⟩

theorem signalVocab_restrict_subset (sim : GameModel St A)
    (scheme : Dict St (Dict Sig ℚ)) :
    ∀ m ∈ signalVocab (restrictScheme sim scheme), m ∈ signalVocab scheme := by
  intro m hm
  obtain ⟨p, hp, hk⟩ := mem_signalVocab_iff.mp hm
  exact mem_signalVocab_iff.mpr ⟨p, (List.mem_filter.mp hp).1, hk⟩

/-- A signal of the full vocabulary that does not survive restriction to the
model's states has probability 0 in every model state's row. -/
theorem schemeAt_extra_zero (sim : GameModel St A)
    (scheme : Dict St (Dict Sig ℚ)) (hs : definedOn scheme sim.states)
    {s : St} (hsst : s ∈ sim.states) {m : Sig}
    (hnot : m ∉ signalVocab (restrictScheme sim scheme)) :
    schemeAt scheme s m = 0 := by
  obtain ⟨row, hrow⟩ := Option.isSome_iff_exists.mp (hs s hsst)
  have hpair : (s, row) ∈ scheme := dictFind?_eq_some_mem hrow
  have hpairR : (s, row) ∈ restrictScheme sim scheme :=
    List.mem_filter.mpr ⟨hpair, by simp [hsst]⟩
  have hkeys : m ∉ dictKeys row := by
    intro hk
    exact hnot (mem_signalVocab_iff.mpr ⟨(s, row), hpairR, hk⟩)
  have hfind : dictFind? row m = none := by
    cases hf : dictFind? row m with
    | none => rfl
    | some v =>
        exact absurd (dictFind?_isSome_iff_mem.mp (by rw [hf]; rfl)) hkeys
  show dGetD (dGetD scheme s []) m 0 = 0
  rw [dGetD_eq [] hrow, dGetD, hfind]
  rfl

theorem sumBy_vocab_restrict (sim : GameModel St A)
    (scheme : Dict St (Dict Sig ℚ)) (g : Sig → ℚ)
    (hzero : ∀ m ∈ signalVocab scheme,
      m ∉ signalVocab (restrictScheme sim scheme) → g m = 0) :
    sumBy (signalVocab scheme) g =
      sumBy (signalVocab (restrictScheme sim scheme)) g := by
  rw [sumBy_eq_toFinset_sum g (signalVocab_nodup scheme),
    sumBy_eq_toFinset_sum g (signalVocab_nodup (restrictScheme sim scheme))]
  refine (Finset.sum_subset ?_ ?_).symm
  · intro x hx
    rw [List.mem_toFinset] at hx ⊢
    exact signalVocab_restrict_subset sim scheme x hx
  · intro x hx hnx
    rw [List.mem_toFinset] at hx
    rw [List.mem_toFinset] at hnx
    exact hzero x hx hnx

/-- Restricting a scheme to the model's states does not change the sender's
expected utility: the dropped rows only contribute extra vocabulary signals,
each carrying probability 0 in every model state. -/
theorem senderEUQ_restrict (sim : GameModel St A)
    (scheme : Dict St (Dict Sig ℚ)) (hs : definedOn scheme sim.states) :
    senderEUQ sim (restrictScheme sim scheme) = senderEUQ sim scheme := by
  rw [senderEUQ, senderEUQ]
  apply sumBy_congr
  intro s hsst
  have hinner : sumBy (signalVocab (restrictScheme sim scheme))
      (fun m => schemeAt (restrictScheme sim scheme) s m *
        usAt sim (bestOf sim (restrictScheme sim scheme) m) s)
      = sumBy (signalVocab (restrictScheme sim scheme))
        (fun m => schemeAt scheme s m * usAt sim (bestOf sim scheme m) s) :=
    sumBy_congr (fun m _ => by
      rw [schemeAt_restrict sim scheme hsst m, bestOf_restrict])
  have hzero_s : ∀ m ∈ signalVocab scheme,
      m ∉ signalVocab (restrictScheme sim scheme) →
      schemeAt scheme s m * usAt sim (bestOf sim scheme m) s = 0 := by
    intro m hm hnot
    rw [schemeAt_extra_zero sim scheme hs hsst hnot, zero_mul]
  rw [hinner, sumBy_vocab_restrict sim scheme _ hzero_s]

end Restriction

section Claims15

/-- Claim C1: for every game model and signaling scheme (both defined on the
model's states) and every signal whose marginal
`Σ_ω scheme[ω].get(signal,0)·prior[ω]` is nonzero,
`_calculate_posterior_belief` returns that marginal together with the
posterior assigning each state `scheme[ω].get(signal,0)·prior[ω]/marginal`;
a signal absent from a state's inner dict contributes probability 0 (via
`.get(signal, 0)`) rather than raising an error. -/
theorem C1_posterior_bayes_nonzero_marginal {St A Sig : Type}
    [DecidableEq St] [DecidableEq A] [DecidableEq Sig] (sim : GameModel St A)
    (scheme : Dict St (Dict Sig ℚ)) (signal : Sig)
    (hs : definedOn scheme sim.states) (hp : definedOn sim.prior sim.states)
    (hm : marginalQ sim scheme signal ≠ 0) :
    calculate_posterior_belief sim signal scheme =
      Except.ok (sim.states.map (fun s =>
        (s, schemeAt scheme s signal * priorAt sim s /
          marginalQ sim scheme signal)),
        marginalQ sim scheme signal) := by
  rw [calculate_posterior_belief_eq sim scheme signal hs hp, postOf,
    if_neg hm, posteriorListQ]

theorem C1_witness :
    calculate_posterior_belief scenario_2 "NoSignal"
      (get_no_revelation_scheme scenario_2.states) =
      Except.ok (scenario_2.states.map (fun s =>
        (s, schemeAt (get_no_revelation_scheme scenario_2.states) s
            "NoSignal" * priorAt scenario_2 s /
          marginalQ scenario_2 (get_no_revelation_scheme scenario_2.states)
            "NoSignal")),
        marginalQ scenario_2 (get_no_revelation_scheme scenario_2.states)
          "NoSignal") :=
  C1_posterior_bayes_nonzero_marginal scenario_2 _ _ (by decide) (by decide)
    (by simp [marginalQ, sumBy, schemeAt, priorAt, dGetD, dictFind?,
      get_no_revelation_scheme, scenario_2])

/-- Claim C2: for every game model with a non-empty action list (receiver
utilities defined on actions and states) and every posterior belief defined
on the states, `_get_receiver_optimal_action` returns the first action in
the model's action order attaining the maximal expected utility
`EU(a) = Σ_ω u_r[a][ω]·belief[ω]`: every earlier action is strictly worse
and no action is better, so exact ties resolve to the earliest action. -/
theorem C2_best_response_first_argmax {St A : Type} [DecidableEq St]
    [DecidableEq A] (sim : GameModel St A) (belief : Dict St ℚ)
    (hact : sim.actions ≠ [])
    (hur : tableDefined sim.u_r sim.actions sim.states)
    (hb : definedOn belief sim.states) :
    ∃ a p₁ p₂, get_receiver_optimal_action sim belief =
        Except.ok (some a) ∧
      sim.actions = p₁ ++ a :: p₂ ∧
      (∀ b ∈ p₁, euQ sim belief b < euQ sim belief a) ∧
      (∀ b ∈ sim.actions, euQ sim belief b ≤ euQ sim belief a) := by
  obtain ⟨a, p₁, p₂, hba, hacts, hlt, hle⟩ := bestActQ_spec sim belief hact
  refine ⟨a, p₁, p₂, ?_, hacts, hlt, ?_⟩
  · rw [get_receiver_optimal_action_eq sim belief hur hb, hba]
  · intro b hb2
    rw [hacts] at hb2
    rcases List.mem_append.mp hb2 with h | h
    · exact le_of_lt (hlt b h)
    · rcases List.mem_cons.mp h with rfl | h
      · exact le_refl _
      · exact hle b h

theorem C2_witness :
    ∃ a p₁ p₂, get_receiver_optimal_action scenario_2
        [("Good", (1 : ℚ)/2), ("Bad", 1/2)] = Except.ok (some a) ∧
      scenario_2.actions = p₁ ++ a :: p₂ ∧
      (∀ b ∈ p₁, euQ scenario_2 [("Good", (1 : ℚ)/2), ("Bad", 1/2)] b <
        euQ scenario_2 [("Good", (1 : ℚ)/2), ("Bad", 1/2)] a) ∧
      (∀ b ∈ scenario_2.actions,
        euQ scenario_2 [("Good", (1 : ℚ)/2), ("Bad", 1/2)] b ≤
          euQ scenario_2 [("Good", (1 : ℚ)/2), ("Bad", 1/2)] a) :=
  C2_best_response_first_argmax scenario_2 _ (by decide) (by decide)
    (by decide)

/-- Claim C3: for every game model (prior and utility tables defined, at
least one action) and scheme whose outer key set equals the model's state
set, `calculate_sender_expected_utility` collects the signal vocabulary as
the union of inner-dict keys, computes one best-response action per signal
from that signal's posterior, and returns
`Σ_ω prior[ω] · Σ_m scheme[ω].get(m,0) · u_s[a*(m)][ω]`. -/
theorem C3_sender_utility_formula {St A Sig : Type} [DecidableEq St]
    [DecidableEq A] [DecidableEq Sig] (sim : GameModel St A)
    (scheme : Dict St (Dict Sig ℚ))
    (hkeys : sameKeySet (dictKeys scheme) sim.states)
    (hp : definedOn sim.prior sim.states)
    (hur : tableDefined sim.u_r sim.actions sim.states)
    (hus : tableDefined sim.u_s sim.actions sim.states)
    (hact : sim.actions ≠ []) :
    calculate_sender_expected_utility sim scheme =
      Except.ok (sumBy sim.states (fun s => priorAt sim s *
        sumBy (signalVocab scheme) (fun m =>
          schemeAt scheme s m * usAt sim (bestOf sim scheme m) s))) := by
  have hs : definedOn scheme sim.states := fun s hsst =>
    dictFind?_isSome_iff_mem.mpr ((hkeys s).mpr hsst)
  exact calculate_sender_ok sim scheme hs hp hur hus hact

theorem C3_witness :
    calculate_sender_expected_utility scenario_2
      (get_full_revelation_scheme scenario_2.states) =
      Except.ok (sumBy scenario_2.states (fun s => priorAt scenario_2 s *
        sumBy (signalVocab (get_full_revelation_scheme scenario_2.states))
          (fun m => schemeAt (get_full_revelation_scheme scenario_2.states)
              s m *
            usAt scenario_2
              (bestOf scenario_2
                (get_full_revelation_scheme scenario_2.states) m) s))) :=
  C3_sender_utility_formula scenario_2 _ (by decide) (by decide) (by decide)
    (by decide) (by decide)

/-- Claim C4: for every game model and scheme (defined on the model's
states) and every signal whose marginal is exactly 0,
`_calculate_posterior_belief` returns the pair of the model's prior and the
marginal 0.0, raising no error. -/
theorem C4_zero_marginal_prior_fallback {St A Sig : Type} [DecidableEq St]
    [DecidableEq A] [DecidableEq Sig] (sim : GameModel St A)
    (scheme : Dict St (Dict Sig ℚ)) (signal : Sig)
    (hs : definedOn scheme sim.states) (hp : definedOn sim.prior sim.states)
    (hm : marginalQ sim scheme signal = 0) :
    calculate_posterior_belief sim signal scheme =
      Except.ok (sim.prior, 0) := by
  rw [calculate_posterior_belief_eq sim scheme signal hs hp, postOf,
    if_pos hm, hm]

theorem C4_witness :
    calculate_posterior_belief scenario_2 "Missing"
      (get_no_revelation_scheme scenario_2.states) =
      Except.ok (scenario_2.prior, 0) :=
  C4_zero_marginal_prior_fallback scenario_2 _ _ (by decide) (by decide)
    (by simp [marginalQ, sumBy, schemeAt, priorAt, dGetD, dictFind?,
      get_no_revelation_scheme, scenario_2])

/-- Claim C5: on the `SimpleBinaryGame` scenario the evaluator returns
exactly 1.0 for the no-revelation scheme and exactly 0.5 for the
full-revelation scheme. -/
theorem C5_simple_binary_game_values :
    calculate_sender_expected_utility scenario_2
      (get_no_revelation_scheme scenario_2.states) = Except.ok 1 ∧
    calculate_sender_expected_utility scenario_2
      (get_full_revelation_scheme scenario_2.states) = Except.ok (1/2) := by
  constructor
  · rw [calculate_sender_ok scenario_2 _ (by decide) (by decide) (by decide)
      (by decide) (by decide)]
    simp [senderEUQ, sumBy, signalVocab, get_no_revelation_scheme,
      scenario_2, dictFind?, dictKeys, dGetD, schemeAt, priorAt, usAt,
      bestOf, bestActQ, bestStep, postOf, posteriorListQ, marginalQ, euQ,
      urAt, List.dedup_cons_of_mem, List.dedup_cons_of_not_mem]
    norm_num [dictFind?]
  · rw [calculate_sender_ok scenario_2 _ (by decide) (by decide) (by decide)
      (by decide) (by decide)]
    simp [senderEUQ, sumBy, signalVocab, get_full_revelation_scheme,
      scenario_2, dictFind?, dictKeys, dGetD, schemeAt, priorAt, usAt,
      bestOf, bestActQ, bestStep, postOf, posteriorListQ, marginalQ, euQ,
      urAt, List.dedup_cons_of_mem, List.dedup_cons_of_not_mem]
    norm_num [dictFind?]

end Claims15

section ConcreteInputs

/-- The `SimpleBinaryGame` model with an empty action list. -/
def sim_noactions : GameModel String String :=
  { scenario_2 with actions := [] }

/-- The `SimpleBinaryGame` model with a prior summing to `1 + 10⁻⁷`:
within the 1e-6 validation tolerance, but not exactly 1. -/
def sim_tol : GameModel String String :=
  { scenario_2 with prior := [("Good", 1/2), ("Bad", 1/2 + 1/10000000)] }

/-- The no-revelation scheme for `scenario_2` extended with a row for an
extra state `"Extra"` that is not a model state (its row also introduces
the extra signal `"Bonus"`). -/
def schemeExtra : Dict String (Dict String ℚ) :=
  get_no_revelation_scheme scenario_2.states ++
    [("Extra", [("NoSignal", 1), ("Bonus", 0)])]

/-- A scheme missing the model state `"Bad"`. -/
def schemeMissing : Dict String (Dict String ℚ) :=
  [("Good", [("m1", 1)])]

/-- A scheme with a negative probability whose row still sums to 1.0. -/
def schemeNegative : Dict String (Dict String ℚ) :=
  [("Good", [("s1", 3/2), ("s2", -(1/2))]), ("Bad", [("s1", 1)])]

end ConcreteInputs

section Claims610

/-- Claim C6 counterexample: a scheme whose outer key set strictly exceeds
the model's state set is evaluated without any error, returning the numeric
value 1 (and its key set indeed differs from the state set), contradicting
the claim that any mismatched scheme fails with a SchemeMismatch error. -/
theorem C6_counterexample :
    calculate_sender_expected_utility scenario_2 schemeExtra =
      Except.ok 1 ∧
    ¬ sameKeySet (dictKeys schemeExtra) scenario_2.states := by
  constructor
  · rw [calculate_sender_ok scenario_2 _ (by decide) (by decide) (by decide)
      (by decide) (by decide)]
    simp [senderEUQ, sumBy, signalVocab, schemeExtra,
      get_no_revelation_scheme, scenario_2, dictFind?, dictKeys, dGetD,
      schemeAt, priorAt, usAt, bestOf, bestActQ, bestStep, postOf,
      posteriorListQ, marginalQ, euQ, urAt, List.dedup_cons_of_mem,
      List.dedup_cons_of_not_mem]
    norm_num [dictFind?]
  · decide

/-- Claim C6 (amended): the code performs no scheme/state-set validation.
A scheme missing at least one model state fails — with a plain `KeyError`
from `signaling_scheme[state]`, not a dedicated SchemeMismatch error —
provided the scheme mentions at least one signal; a scheme with extra
states raises no error at all. -/
theorem C6_missing_state_key_error {St A Sig : Type} [DecidableEq St]
    [DecidableEq A] [DecidableEq Sig] (sim : GameModel St A)
    (scheme : Dict St (Dict Sig ℚ)) (s0 : St)
    (hmem : s0 ∈ sim.states) (hmiss : dictFind? scheme s0 = none)
    (hvocab : signalVocab scheme ≠ []) :
    calculate_sender_expected_utility sim scheme =
      Except.error PyErr.keyError :=
  calculate_sender_missing_state sim scheme s0 hmem hmiss hvocab

theorem C6_witness :
    calculate_sender_expected_utility scenario_2 schemeMissing =
      Except.error PyErr.keyError :=
  C6_missing_state_key_error scenario_2 schemeMissing "Bad" (by decide)
    (by decide) (by decide)

/-- Claim C7 (code bug): `validate_llm_scheme` accepts a scheme containing
a negative probability whose row still sums to 1.0 — it checks the key set,
row non-emptiness and the row sums, but never nonnegativity — although its
own docstring says it checks that the output is a valid probability
distribution, and the spec requires all probabilities ≥ 0. -/
theorem C7_negative_probability_accepted :
    validate_llm_scheme schemeNegative ["Good", "Bad"] = true ∧
    dGetD (dGetD schemeNegative "Good" []) "s2" 0 < 0 := by
  constructor
  · have hks : sameKeySet (dictKeys schemeNegative) ["Good", "Bad"] := by
      decide
    rw [validate_llm_scheme, if_neg (not_not_intro hks)]
    simp [schemeNegative, sumBy]
    norm_num
  · simp [schemeNegative, dGetD, dictFind?]

/-- Claim C8 counterexample: with an empty action list the best-response
selector does not signal any error — it returns the value `None`
(Python's `optimal_action` initial value), here `Option.none`. -/
theorem C8_counterexample :
    get_receiver_optimal_action sim_noactions scenario_2.prior =
      Except.ok none := rfl

/-- Claim C8 (amended): for every game model whose action list is empty and
every belief, `_get_receiver_optimal_action` raises no EmptyActionSet (or
any other) error; it returns Python's `None` sentinel, here `Option.none`.
(The sender-utility lookup `u_s[None]` in the evaluator then fails later
with a `KeyError` if any signal exists.) -/
theorem C8_empty_actions_returns_none {St A : Type} [DecidableEq St]
    [DecidableEq A] (sim : GameModel St A) (belief : Dict St ℚ)
    (hact : sim.actions = []) :
    get_receiver_optimal_action sim belief = Except.ok none := by
  rw [get_receiver_optimal_action, hact]
  rfl

theorem C8_witness :
    get_receiver_optimal_action sim_noactions [("Good", (1 : ℚ))] =
      Except.ok none :=
  C8_empty_actions_returns_none sim_noactions [("Good", (1 : ℚ))] rfl

end Claims610

section Claims910

/-- Claim C9 counterexample: a prior that is valid in the claim's sense
(nonnegative masses, sum within the 1e-6 tolerance of 1) but not summing to
exactly 1 yields a pooling-signal posterior that is not equal to the prior:
the posterior mass stored for "Good" differs from the prior mass of
"Good". -/
theorem C9_counterexample :
    0 ≤ priorAt sim_tol "Good" ∧ 0 ≤ priorAt sim_tol "Bad" ∧
    |sumBy sim_tol.states (priorAt sim_tol) - 1| < 1/1000000 ∧
    ((calculate_posterior_belief sim_tol "NoSignal"
        (get_no_revelation_scheme sim_tol.states)).toOption.map
      (fun pr => dGetD pr.1 "Good" 0))
      ≠ some (priorAt sim_tol "Good") := by
  have hmarg : marginalQ sim_tol (get_no_revelation_scheme sim_tol.states)
      "NoSignal" = 1 + 1/10000000 := by
    simp [marginalQ, sumBy, schemeAt, priorAt, dGetD, dictFind?,
      get_no_revelation_scheme, sim_tol, scenario_2]
    norm_num
  refine ⟨?_, ?_, ?_, ?_⟩
  · simp [priorAt, dGetD, dictFind?, sim_tol, scenario_2]
  · simp [priorAt, dGetD, dictFind?, sim_tol, scenario_2]
    norm_num
  · rw [abs_lt]
    constructor <;>
      simp [sumBy, priorAt, dGetD, dictFind?, sim_tol, scenario_2] <;>
      norm_num
  · rw [calculate_posterior_belief_eq sim_tol
      (get_no_revelation_scheme sim_tol.states) "NoSignal" (by decide)
      (by decide),
      postOf, if_neg (by rw [hmarg]; norm_num), posteriorListQ]
    simp only [hmarg]
    simp [schemeAt, priorAt, dGetD, dictFind?,
      get_no_revelation_scheme, sim_tol, scenario_2, Except.toOption]
    norm_num

/-- Claim C9 (amended): for every game model whose prior is defined and
nonnegative on its states and sums to exactly 1 over them, the posterior
computed for the pooling signal of the no-revelation scheme has marginal 1
and stores exactly the prior mass for every state. -/
theorem C9_exact_prior_posterior_is_prior {St A : Type} [DecidableEq St]
    [DecidableEq A] (sim : GameModel St A)
    (hp : definedOn sim.prior sim.states)
    (_hnn : ∀ s ∈ sim.states, 0 ≤ priorAt sim s)
    (hsum : sumBy sim.states (priorAt sim) = 1) :
    ∃ post, calculate_posterior_belief sim "NoSignal"
        (get_no_revelation_scheme sim.states) = Except.ok (post, 1) ∧
      ∀ s ∈ sim.states, dictFind? post s = some (priorAt sim s) := by
  have hs : definedOn (get_no_revelation_scheme sim.states) sim.states := by
    intro s hsst
    rw [get_no_revelation_scheme,
      dictFind?_map_self (fun _ => [("NoSignal", (1 : ℚ))]) hsst]
    rfl
  have hsch : ∀ s ∈ sim.states,
      schemeAt (get_no_revelation_scheme sim.states) s "NoSignal" = 1 := by
    intro s hsst
    simp [schemeAt, dGetD, get_no_revelation_scheme,
      dictFind?_map_self (fun _ => [("NoSignal", (1 : ℚ))]) hsst, dictFind?]
  have hmarg : marginalQ sim (get_no_revelation_scheme sim.states)
      "NoSignal" = 1 := by
    have h1 : marginalQ sim (get_no_revelation_scheme sim.states) "NoSignal"
        = sumBy sim.states (fun s => priorAt sim s) := by
      rw [marginalQ]
      exact sumBy_congr (fun s hsst => by rw [hsch s hsst, one_mul])
    rw [h1]
    exact hsum
  have hne : marginalQ sim (get_no_revelation_scheme sim.states)
      "NoSignal" ≠ 0 := by
    rw [hmarg]
    norm_num
  refine ⟨posteriorListQ sim (get_no_revelation_scheme sim.states)
    "NoSignal", ?_, ?_⟩
  · rw [calculate_posterior_belief_eq sim (get_no_revelation_scheme
      sim.states) "NoSignal" hs hp, postOf, if_neg hne, hmarg]
  · intro s hsst
    rw [posteriorListQ, dictFind?_map_self (fun s =>
      schemeAt (get_no_revelation_scheme sim.states) s "NoSignal" *
        priorAt sim s /
        marginalQ sim (get_no_revelation_scheme sim.states) "NoSignal")
      hsst]
    simp only [hmarg, hsch s hsst, one_mul, div_one]

theorem C9_witness :
    ∃ post, calculate_posterior_belief scenario_2 "NoSignal"
        (get_no_revelation_scheme scenario_2.states) =
        Except.ok (post, 1) ∧
      ∀ s ∈ scenario_2.states, dictFind? post s =
        some (priorAt scenario_2 s) :=
  C9_exact_prior_posterior_is_prior scenario_2 (by decide)
    (by
      intro s hsst
      fin_cases hsst <;> norm_num [priorAt, dGetD, dictFind?, scenario_2])
    (by
      simp [sumBy, priorAt, dGetD, dictFind?, scenario_2]
      norm_num)

/-- Claim C10: for every well-formed game model and every scheme (rows
nonnegative) whose outer key set strictly contains the model's state set,
`calculate_sender_expected_utility` raises no error and returns the same
value as evaluating the scheme restricted to the model's states: the extra
rows only contribute extra vocabulary signals, and marginals and the
aggregation iterate over the model's states only. -/
theorem C10_extra_states_ignored {St A Sig : Type} [DecidableEq St]
    [DecidableEq A] [DecidableEq Sig] (sim : GameModel St A)
    (scheme : Dict St (Dict Sig ℚ))
    (hsub : ∀ s ∈ sim.states, s ∈ dictKeys scheme)
    (_hstrict : ∃ e ∈ dictKeys scheme, e ∉ sim.states)
    (_hnn : ∀ p ∈ scheme, ∀ q ∈ p.2, 0 ≤ q.2)
    (hp : definedOn sim.prior sim.states)
    (hur : tableDefined sim.u_r sim.actions sim.states)
    (hus : tableDefined sim.u_s sim.actions sim.states)
    (hact : sim.actions ≠ []) :
    ∃ v, calculate_sender_expected_utility sim scheme = Except.ok v ∧
      calculate_sender_expected_utility sim (restrictScheme sim scheme) =
        Except.ok v := by
  have hs : definedOn scheme sim.states := fun s hsst =>
    dictFind?_isSome_iff_mem.mpr (hsub s hsst)
  have hsR : definedOn (restrictScheme sim scheme) sim.states := by
    intro s hsst
    rw [restrict_find sim scheme hsst]
    exact hs s hsst
  refine ⟨senderEUQ sim scheme,
    calculate_sender_ok sim scheme hs hp hur hus hact, ?_⟩
  rw [calculate_sender_ok sim (restrictScheme sim scheme) hsR hp hur hus
    hact, senderEUQ_restrict sim scheme hs]

theorem C10_witness :
    ∃ v, calculate_sender_expected_utility scenario_2 schemeExtra =
        Except.ok v ∧
      calculate_sender_expected_utility scenario_2
        (restrictScheme scenario_2 schemeExtra) = Except.ok v :=
  C10_extra_states_ignored scenario_2 schemeExtra (by decide) (by decide)
    (by
      intro p hp2 q hq
      simp only [schemeExtra, get_no_revelation_scheme, scenario_2,
        List.map, List.cons_append, List.nil_append, List.mem_cons,
        List.not_mem_nil, or_false] at hp2
      rcases hp2 with rfl | rfl | rfl <;>
        simp only [List.mem_cons, List.not_mem_nil, or_false] at hq
      · subst hq
        norm_num
      · subst hq
        norm_num
      · rcases hq with rfl | rfl <;> norm_num)
    (by decide) (by decide) (by decide) (by decide)

end Claims910
